import Mathlib

/-!
Verification of the medi-bridge backend against its specification.

The development shallowly embeds the controller logic of
`src/controllers/forumController.js` and `src/controllers/doctorController.js`.
The MongoDB document store is modelled as explicit lists of documents inside a
`Store` structure; Mongoose `populate` is modelled by explicit hydration
functions that mirror, level by level, the population options written in the
source; `findByIdAndUpdate` with `$push` is modelled as a map over the
collection that appends to the matching document's array (a no-op when no
document has the id, as in MongoDB).  Document ids are natural numbers drawn
from a `nextId` counter, modelling MongoDB's generation of fresh ObjectIds.
The document schemas (`models/` is not part of the sources) are modelled from
the spec: Post and Comment follow spec section 3; Doctor, User and Appointment
carry exactly the fields the controllers read and write.
-/

/-- Projection of an author produced by `populate("author", "name specialization")`:
a user document has no `specialization` field, a doctor document does. -/
structure AuthorProj where
  name : String
  specialization : Option String
deriving Repr, DecidableEq

/-- Modelled from the spec: a User entity, only the fields selected by the
forum controllers (`name`; users have no `specialization`). -/
structure UserDoc where
  id : Nat
  name : String
deriving Repr, DecidableEq

/-- One availability entry as stored in `doctor.availableSlots` by
`setAvailability`: a date together with the slots for that date. -/
structure AvailEntry where
  date : String
  slots : List String
deriving Repr, DecidableEq

/-- Modelled from the spec: a Doctor entity with the fields the controllers
use (`name`, `specialization` for author projection, `availableSlots`). -/
structure DoctorDoc where
  id : Nat
  name : String
  specialization : String
  availableSlots : List AvailEntry
deriving Repr, DecidableEq

/-- Modelled from the spec, section 3: a Post document. -/
structure Post where
  id : Nat
  content : String
  author : Nat
  authorType : String
  comments : List Nat
  createdAt : Nat
deriving Repr, DecidableEq

/-- Modelled from the spec, section 3: a Comment document. -/
structure Comment where
  id : Nat
  content : String
  author : Nat
  authorType : String
  post : Nat
  parentComment : Option Nat
  replies : List Nat
  createdAt : Nat
deriving Repr, DecidableEq

/-- The document store: the collections the controllers touch, plus the
fresh-id counter modelling MongoDB ObjectId generation. -/
structure Store where
  posts : List Post
  comments : List Comment
  users : List UserDoc
  doctors : List DoctorDoc
  nextId : Nat
deriving Repr, DecidableEq

/-- `capitalizeRole` from forumController.js:
`role.charAt(0).toUpperCase() + role.slice(1)`. -/
def capitalizeRole (role : String) : String :=
  match role.data with
  | [] => ""
  | c :: cs => String.mk (c.toUpper :: cs)

/-- JavaScript falsiness of the `content` request field: `!content` is true
when the field is absent or the empty string. -/
def contentMissing : Option String → Bool
  | none => true
  | some t => t == ""

/-- `Comment.findById`: first (and, with unique ids, only) comment with the id. -/
def findComment (s : Store) (cid : Nat) : Option Comment :=
  s.comments.find? fun c => c.id == cid

/-- `Post.findById`: first (and, with unique ids, only) post with the id. -/
def findPost (s : Store) (pid : Nat) : Option Post :=
  s.posts.find? fun p => p.id == pid

/-- `populate("author", "name specialization")` through the `refPath`
discriminator: look the author id up in the collection named by `authorType`
and project the selected fields. A dangling reference yields `none`. -/
def resolveAuthor (s : Store) (aid : Nat) (atype : String) : Option AuthorProj :=
  if atype == "User" then
    (s.users.find? fun u => u.id == aid).map fun u =>
      { name := u.name, specialization := none }
  else if atype == "Doctor" then
    (s.doctors.find? fun d => d.id == aid).map fun d =>
      { name := d.name, specialization := some d.specialization }
  else none

/-- Sort key used by `getAllPosts` for posts: `sort({ createdAt: -1 })`,
newest first. -/
def postNewestFirst (a b : Post) : Prop := b.createdAt ≤ a.createdAt

/-- Sort key used by `getAllPosts` for the populated comments:
`options: { sort: { createdAt: 1 } }`, oldest first. -/
def commentOldestFirst (a b : Comment) : Prop := a.createdAt ≤ b.createdAt

instance : DecidableRel postNewestFirst :=
  fun a b => inferInstanceAs (Decidable (b.createdAt ≤ a.createdAt))

instance : DecidableRel commentOldestFirst :=
  fun a b => inferInstanceAs (Decidable (a.createdAt ≤ b.createdAt))

instance : IsTotal Post postNewestFirst :=
  ⟨fun a b => (Nat.le_total b.createdAt a.createdAt).symm.symm⟩

instance : IsTrans Post postNewestFirst :=
  ⟨fun _ _ _ h1 h2 => Nat.le_trans h2 h1⟩

instance : IsTotal Comment commentOldestFirst :=
  ⟨fun a b => Nat.le_total a.createdAt b.createdAt⟩

instance : IsTrans Comment commentOldestFirst :=
  ⟨fun _ _ _ h1 h2 => Nat.le_trans h1 h2⟩

/-- A node of the hydrated reply tree returned by `getAllPosts`: either a bare
id (a reference the population options did not reach) or an expanded Comment
document with its author projection and its (partially) hydrated replies. -/
inductive HNode where
  | bare (id : Nat)
  | node (doc : Comment) (authorProj : Option AuthorProj) (replies : List HNode)
deriving Repr

/-- A hydrated top-level comment: the document, its author projection, and its
hydrated replies. -/
structure HComment where
  doc : Comment
  authorProj : Option AuthorProj
  replies : List HNode
deriving Repr

/-- A hydrated post as returned by `getAllPosts`. -/
structure HPost where
  doc : Post
  authorProj : Option AuthorProj
  comments : List HComment
deriving Repr

/-- Innermost population level of `commentPopulation` (`path: "replies",
populate: { path: "author" }` with nothing below): the document is expanded
and its author resolved, but its own `replies` stay bare ids. -/
def hydrateLevel3 (s : Store) (cid : Nat) : Option HNode :=
  (findComment s cid).map fun c =>
    HNode.node c (resolveAuthor s c.author c.authorType) (c.replies.map HNode.bare)

/-- Outer level of `commentPopulation`: a reply of a top-level comment is
expanded, its author resolved, and its replies populated one level further by
`hydrateLevel3`.  Dangling ids are dropped, as Mongoose drops array members
that resolve to no document. -/
def hydrateLevel2 (s : Store) (cid : Nat) : Option HNode :=
  (findComment s cid).map fun c =>
    HNode.node c (resolveAuthor s c.author c.authorType)
      (c.replies.filterMap (hydrateLevel3 s))

/-- Hydration of a top-level comment in `getAllPosts`: author resolved and
`replies` populated through `commentPopulation` (= `hydrateLevel2`). -/
def hydrateTopComment (s : Store) (c : Comment) : HComment :=
  { doc := c
    authorProj := resolveAuthor s c.author c.authorType
    replies := c.replies.filterMap (hydrateLevel2 s) }

/-- `getAllPosts` from forumController.js: all posts sorted newest-first,
author populated, `comments` populated (dangling ids dropped), sorted
oldest-first, each hydrated per the population options. -/
def getAllPosts (s : Store) : List HPost :=
  (List.insertionSort postNewestFirst s.posts).map fun p =>
    { doc := p
      authorProj := resolveAuthor s p.author p.authorType
      comments :=
        (List.insertionSort commentOldestFirst
            (p.comments.filterMap (findComment s))).map (hydrateTopComment s) }

/-- The GET /posts handler as a state transformer: it only reads the store. -/
def getAllPostsOp (s : Store) : Store × List HPost := (s, getAllPosts s)

/-- Response of `createPost`. -/
inductive CreatePostResult where
  | badRequest (msg : String)
  | created (p : Post) (authorProj : Option AuthorProj)
deriving Repr, DecidableEq

/-- HTTP status of a `createPost` response. -/
def CreatePostResult.status : CreatePostResult → Nat
  | .badRequest _ => 400
  | .created _ _ => 201

/-- Response of `createComment`. -/
inductive CreateCommentResult where
  | badRequest (msg : String)
  | created (c : Comment) (authorProj : Option AuthorProj)
deriving Repr, DecidableEq

/-- HTTP status of a `createComment` response. -/
def CreateCommentResult.status : CreateCommentResult → Nat
  | .badRequest _ => 400
  | .created _ _ => 201

/-- `createPost` from forumController.js: reject falsy content with 400,
otherwise insert a fresh Post and answer 201 with the post re-fetched by id
and its author populated. -/
def createPost (s : Store) (userId : Nat) (role : String) (content : Option String)
    (now : Nat) : Store × CreatePostResult :=
  if contentMissing content then
    (s, .badRequest "Post content cannot be empty")
  else
    let p : Post :=
      { id := s.nextId
        content := content.getD ""
        author := userId
        authorType := capitalizeRole role
        comments := []
        createdAt := now }
    let s1 : Store := { s with posts := s.posts ++ [p], nextId := s.nextId + 1 }
    let found := (findPost s1 p.id).getD p
    (s1, .created found (resolveAuthor s1 found.author found.authorType))

/-- The Comment document `Comment.create` builds in `createComment`: the
request fields plus a fresh id and timestamp, with
`parentComment: parentCommentId || null` and an empty `replies` array. -/
def mkComment (s : Store) (userId : Nat) (role : String) (postId : Nat)
    (text : String) (parentCommentId : Option Nat) (now : Nat) : Comment :=
  { id := s.nextId
    content := text
    author := userId
    authorType := capitalizeRole role
    post := postId
    parentComment := parentCommentId
    replies := []
    createdAt := now }

/-- `Comment.create`: insert the document and advance the id counter. -/
def insertComment (s : Store) (c : Comment) : Store :=
  { s with comments := s.comments ++ [c], nextId := s.nextId + 1 }

/-- `Comment.findByIdAndUpdate(parentCommentId, { $push: { replies: newId } })`:
append to the `replies` array of the comment with the given id; a no-op when
no comment has the id. -/
def pushReply (s : Store) (pid newId : Nat) : Store :=
  { s with comments := s.comments.map fun q =>
      if q.id = pid then { q with replies := q.replies ++ [newId] } else q }

/-- `Post.findByIdAndUpdate(postId, { $push: { comments: newId } })`: append to
the `comments` array of the post with the given id; a no-op when no post has
the id. -/
def pushPostComment (s : Store) (postId newId : Nat) : Store :=
  { s with posts := s.posts.map fun p =>
      if p.id = postId then { p with comments := p.comments ++ [newId] } else p }

/-- `createComment` from forumController.js: reject falsy content with 400;
otherwise insert a fresh Comment, then perform the single linkage update
(push onto the parent comment's `replies` when `parentCommentId` is given,
else onto the post's `comments`), and answer 201 with the comment re-fetched
by id, author populated. -/
def createComment (s : Store) (userId : Nat) (role : String) (postId : Nat)
    (content : Option String) (parentCommentId : Option Nat) (now : Nat) :
    Store × CreateCommentResult :=
  if contentMissing content then
    (s, .badRequest "Comment content cannot be empty")
  else
    let c : Comment := mkComment s userId role postId (content.getD "") parentCommentId now
    let s1 : Store := insertComment s c
    let s2 : Store :=
      match parentCommentId with
      | some pid => pushReply s1 pid c.id
      | none => pushPostComment s1 postId c.id
    let found := (findComment s2 c.id).getD c
    (s2, .created found (resolveAuthor s2 found.author found.authorType))

/-- Well-formedness of a store, maintained by MongoDB: every document id and
every id stored in a linkage array was generated before `nextId`, and ids are
unique within each collection. -/
def WFStore (s : Store) : Prop :=
  (∀ p ∈ s.posts, p.id < s.nextId ∧ ∀ cid ∈ p.comments, cid < s.nextId) ∧
  (∀ c ∈ s.comments, c.id < s.nextId ∧ ∀ rid ∈ c.replies, rid < s.nextId) ∧
  (s.posts.map Post.id).Nodup ∧ (s.comments.map Comment.id).Nodup

instance (s : Store) : Decidable (WFStore s) := by
  unfold WFStore; infer_instance

/-- Whether a hydrated tree node is a bare, unexpanded id. -/
def HNode.isBare : HNode → Bool
  | .bare _ => true
  | .node _ _ _ => false

/-- The id at the root of a hydrated tree node. -/
def HNode.topId : HNode → Nat
  | .bare i => i
  | .node c _ _ => c.id

/-- The child nodes of a hydrated tree node (none for a bare id). -/
def HNode.children : HNode → List HNode
  | .bare _ => []
  | .node _ _ rs => rs

/-- All nodes reachable from a list of hydrated nodes within `fuel` levels. -/
def flattenNodes : Nat → List HNode → List HNode
  | 0, _ => []
  | fuel + 1, ns => ns ++ flattenNodes fuel (ns.flatMap HNode.children)

/-- The in-place update `setAvailability` performs on `doctor.availableSlots`:
`find` the first entry for the date and overwrite its `slots`, else `push` a
new entry at the end. -/
def setSlots : List AvailEntry → String → List String → List AvailEntry
  | [], date, slots => [{ date := date, slots := slots }]
  | e :: rest, date, slots =>
    if e.date = date then { date := e.date, slots := slots } :: rest
    else e :: setSlots rest date slots

/-- `setAvailability` from doctorController.js: 404 when the doctor id is
absent, otherwise update that doctor's `availableSlots` via `setSlots` and
save, answering 200. -/
def setAvailability (doctors : List DoctorDoc) (doctorId : Nat) (date : String)
    (slots : List String) : List DoctorDoc × Nat :=
  match doctors.find? (fun d => d.id == doctorId) with
  | none => (doctors, 404)
  | some d =>
      (doctors.map fun x =>
        if x.id = d.id then
          { x with availableSlots := setSlots x.availableSlots date slots }
        else x, 200)

/-- Modelled from the spec: an Appointment document with the fields
doctorController.js reads and writes. -/
structure Appointment where
  id : Nat
  doctorId : Nat
  userId : Nat
  date : String
  status : String
deriving Repr, DecidableEq

/-- `markAppointmentCompleted` from doctorController.js: `findOne` by
appointment id and owning doctor (404 when absent), 400 when the status is
already "completed", otherwise set the status to "completed", save, and
answer 200. -/
def markAppointmentCompleted (apps : List Appointment) (doctorId appointmentId : Nat) :
    List Appointment × Nat :=
  match apps.find? (fun a => a.id == appointmentId && a.doctorId == doctorId) with
  | none => (apps, 404)
  | some a =>
      if a.status == "completed" then (apps, 400)
      else
        (apps.map fun x =>
          if x.id = a.id then { x with status := "completed" } else x, 200)

/-- A store used as concrete input for witnesses and the depth
counterexample: one post carrying a four-level reply chain 1 → 2 → 3 → 4. -/
def cexUser : UserDoc := { id := 0, name := "u" }

/-- The post of the counterexample store. -/
def cexPost : Post :=
  { id := 0, content := "p", author := 0, authorType := "User", comments := [1], createdAt := 0 }

/-- Top-level comment of the chain. -/
def cexC1 : Comment :=
  { id := 1, content := "c1", author := 0, authorType := "User", post := 0,
    parentComment := none, replies := [2], createdAt := 1 }

/-- Reply to `cexC1`. -/
def cexC2 : Comment :=
  { id := 2, content := "c2", author := 0, authorType := "User", post := 0,
    parentComment := some 1, replies := [3], createdAt := 2 }

/-- Reply to `cexC2`. -/
def cexC3 : Comment :=
  { id := 3, content := "c3", author := 0, authorType := "User", post := 0,
    parentComment := some 2, replies := [4], createdAt := 3 }

/-- Reply to `cexC3`, the fourth level of the stored chain. -/
def cexC4 : Comment :=
  { id := 4, content := "c4", author := 0, authorType := "User", post := 0,
    parentComment := some 3, replies := [], createdAt := 4 }

/-- The counterexample store holding the four-level chain. -/
def cexStore : Store :=
  { posts := [cexPost], comments := [cexC1, cexC2, cexC3, cexC4],
    users := [cexUser], doctors := [], nextId := 5 }

/-- Every tree node reachable from the reply lists of the top-level comments
in the hydrated response for `cexStore` (fuel 6 exceeds the response depth). -/
def cexDeepNodes : List HNode :=
  flattenNodes 6 ((getAllPosts cexStore).flatMap fun hp => hp.comments.flatMap HComment.replies)

/-- Author projection of the single user in `cexStore`. -/
def cexProj : AuthorProj := { name := "u", specialization := none }

/-- Hydrated form of `cexC3` in the response: expanded, but its reply 4 bare. -/
def cexN3 : HNode := .node cexC3 (some cexProj) [.bare 4]

/-- Hydrated form of `cexC2` in the response. -/
def cexN2 : HNode := .node cexC2 (some cexProj) [cexN3]

/-- Hydrated form of the top-level comment `cexC1` in the response. -/
def cexHC : HComment := { doc := cexC1, authorProj := some cexProj, replies := [cexN2] }

/-- Hydrated form of `cexPost` in the response. -/
def cexHP : HPost := { doc := cexPost, authorProj := some cexProj, comments := [cexHC] }

/-- Concrete post used as witness input for the reply round-trip claim. -/
def demoPost : Post :=
  { id := 10, content := "hello", author := 0, authorType := "User",
    comments := [], createdAt := 3 }

/-- Concrete store used as witness input for the reply round-trip claim. -/
def demoStore : Store :=
  { posts := [demoPost], comments := [], users := [cexUser], doctors := [], nextId := 11 }

/-- Concrete doctor used as witness input for the availability claim. -/
def demoDoctor : DoctorDoc :=
  { id := 1, name := "d", specialization := "derm",
    availableSlots := [{ date := "2026-01-01", slots := ["09:00"] }] }

/-- Concrete doctors collection for witnesses. -/
def demoDoctors : List DoctorDoc := [demoDoctor]

/-- Concrete appointment used as witness input. -/
def demoAppointment : Appointment :=
  { id := 2, doctorId := 1, userId := 0, date := "2026-01-02", status := "pending" }

/-- Concrete appointments collection for witnesses. -/
def demoApps : List Appointment := [demoAppointment]

theorem find?_id_fresh (l : List Comment) (k : Nat) (hid : ∀ c ∈ l, c.id ≠ k) :
    l.find? (fun c => c.id == k) = none := by
  induction l with
  | nil => rfl
  | cons a l ih =>
    rw [List.find?_cons_of_neg]
    · exact ih fun c hc => hid c (List.mem_cons_of_mem a hc)
    · simp [hid a (List.mem_cons_self a l)]

theorem findComment_comments_append (S : Store) (l : List Comment) (c0 : Comment)
    (hS : S.comments = l ++ [c0]) (hf : ∀ x ∈ l, x.id ≠ c0.id) :
    findComment S c0.id = some c0 := by
  unfold findComment
  rw [hS, List.find?_append, find?_id_fresh l c0.id hf]
  simp

/-- C7: the role-to-authorType derivation used by `createPost` and
`createComment` maps the role string "user" to "User" and "doctor" to
"Doctor". -/
theorem capitalizeRole_spec :
    capitalizeRole "user" = "User" ∧ capitalizeRole "doctor" = "Doctor" :=
  ⟨rfl, rfl⟩

/-- C2 counterexample: `getAllPosts` does not expand a stored reply chain to
arbitrary depth.  `cexStore` holds the chain post → 1 → 2 → 3 → 4; in the
hydrated response the nodes of depth 2 and 3 are expanded, but the depth-4
comment 4 occurs only as the bare id `HNode.bare 4`, never as an expanded
node (`cexDeepNodes` enumerates every node reachable below the top-level
comments of the whole response). -/
theorem getAllPosts_depth_counterexample :
    WFStore cexStore ∧
    (cexPost ∈ cexStore.posts ∧ 1 ∈ cexPost.comments) ∧
    (cexC1 ∈ cexStore.comments ∧ 2 ∈ cexC1.replies) ∧
    (cexC2 ∈ cexStore.comments ∧ 3 ∈ cexC2.replies) ∧
    (cexC3 ∈ cexStore.comments ∧ 4 ∈ cexC3.replies) ∧
    cexC4 ∈ cexStore.comments ∧
    (getAllPosts cexStore).map (fun hp => hp.comments.map fun hc => hc.doc.id) = [[1]] ∧
    cexDeepNodes.map (fun n => (n.isBare, n.topId)) = [(false, 2), (false, 3), (true, 4)] := by
  decide

/-- C2 amended: `getAllPosts` hydrates exactly three comment levels — the
top-level comments, their replies, and the replies of those replies are
expanded, while the reply arrays of third-level nodes always stay bare ids. -/
theorem getAllPosts_three_level_hydration (s : Store) :
    ∀ hp ∈ getAllPosts s, ∀ hc ∈ hp.comments, ∀ n2 ∈ hc.replies,
      n2.isBare = false ∧
      ∀ n3 ∈ n2.children, n3.isBare = false ∧
        ∀ n4 ∈ n3.children, n4.isBare = true := by
  intro hp hhp hc hhc n2 hn2
  simp only [getAllPosts, List.mem_map] at hhp
  obtain ⟨p, -, rfl⟩ := hhp
  simp only [List.mem_map] at hhc
  obtain ⟨c, -, rfl⟩ := hhc
  simp only [hydrateTopComment, List.mem_filterMap, hydrateLevel2, Option.map_eq_some'] at hn2
  obtain ⟨cid, -, c2, -, rfl⟩ := hn2
  refine ⟨rfl, ?_⟩
  intro n3 hn3
  simp only [HNode.children, List.mem_filterMap, hydrateLevel3, Option.map_eq_some'] at hn3
  obtain ⟨cid3, -, c3, -, rfl⟩ := hn3
  refine ⟨rfl, ?_⟩
  intro n4 hn4
  simp only [HNode.children, List.mem_map] at hn4
  obtain ⟨rid, -, rfl⟩ := hn4
  rfl

theorem cex_hydrated : getAllPosts cexStore = [cexHP] := rfl

theorem getAllPosts_three_level_hydration_witness :
    cexN2.isBare = false ∧
    ∀ n3 ∈ cexN2.children, n3.isBare = false ∧ ∀ n4 ∈ n3.children, n4.isBare = true :=
  getAllPosts_three_level_hydration cexStore cexHP
    (by rw [cex_hydrated]; exact List.mem_singleton.mpr rfl)
    cexHC (List.mem_singleton.mpr rfl) cexN2 (List.mem_singleton.mpr rfl)

/-- C3: `getAllPosts` returns the posts newest-first by `createdAt`, and
inside every returned post the top-level comments oldest-first by
`createdAt`. -/
theorem getAllPosts_ordering (s : Store) :
    List.Pairwise (fun a b : HPost => b.doc.createdAt ≤ a.doc.createdAt) (getAllPosts s) ∧
    ∀ hp ∈ getAllPosts s,
      List.Pairwise (fun a b : HComment => a.doc.createdAt ≤ b.doc.createdAt) hp.comments := by
  constructor
  · simp only [getAllPosts]
    exact List.Pairwise.map _ (fun a b h => h) (List.sorted_insertionSort postNewestFirst s.posts)
  · intro hp hhp
    simp only [getAllPosts, List.mem_map] at hhp
    obtain ⟨p, -, rfl⟩ := hhp
    exact List.Pairwise.map _ (fun a b h => h) (List.sorted_insertionSort commentOldestFirst _)

theorem getAllPosts_ordering_witness :
    List.Pairwise (fun a b : HPost => b.doc.createdAt ≤ a.doc.createdAt) (getAllPosts cexStore) ∧
    List.Pairwise (fun a b : HComment => a.doc.createdAt ≤ b.doc.createdAt) cexHP.comments :=
  ⟨(getAllPosts_ordering cexStore).1,
   (getAllPosts_ordering cexStore).2 cexHP
     (by rw [cex_hydrated]; exact List.mem_singleton.mpr rfl)⟩

/-- C4: empty or missing content makes `createPost` and `createComment`
answer 400 and leave the store untouched; with non-empty content `createPost`
creates exactly one new Post document and no Comment. -/
theorem content_validation (s : Store) (uid now postId : Nat) (role : String)
    (content : Option String) (pcid : Option Nat) :
    (contentMissing content = true →
      (createPost s uid role content now).2.status = 400 ∧
      (createPost s uid role content now).1 = s ∧
      (createComment s uid role postId content pcid now).2.status = 400 ∧
      (createComment s uid role postId content pcid now).1 = s) ∧
    (contentMissing content = false →
      (createPost s uid role content now).2.status = 201 ∧
      (∃ p : Post, (createPost s uid role content now).1.posts = s.posts ++ [p]) ∧
      (createPost s uid role content now).1.comments = s.comments) := by
  constructor
  · intro h
    simp [createPost, createComment, h, CreatePostResult.status, CreateCommentResult.status]
  · intro h
    simp [createPost, h, CreatePostResult.status]

theorem content_validation_witness :
    ((createPost cexStore 0 "user" none 7).2.status = 400 ∧
      (createPost cexStore 0 "user" none 7).1 = cexStore ∧
      (createComment cexStore 0 "user" 0 none none 7).2.status = 400 ∧
      (createComment cexStore 0 "user" 0 none none 7).1 = cexStore) ∧
    ((createPost cexStore 0 "user" (some "x") 7).2.status = 201 ∧
      (∃ p : Post, (createPost cexStore 0 "user" (some "x") 7).1.posts =
        cexStore.posts ++ [p]) ∧
      (createPost cexStore 0 "user" (some "x") 7).1.comments = cexStore.comments) :=
  ⟨(content_validation cexStore 0 7 0 "user" none none).1 rfl,
   (content_validation cexStore 0 7 0 "user" (some "x") none).2 rfl⟩

/-- C1: with non-empty content, `createComment` creates the new Comment and
performs exactly one linkage update: when `parentCommentId` is present, only
the parent comment's `replies` array (among all `replies` arrays) is appended
to, and no post's `comments` array changes; when it is absent, only the
addressed post's `comments` array is appended to, and no comment's `replies`
array changes. -/
theorem createComment_single_linkage (s : Store) (uid now postId : Nat) (role text : String)
    (pcid : Option Nat) (ht : text ≠ "") :
    (∃ c ∈ (createComment s uid role postId (some text) pcid now).1.comments,
        c.id = s.nextId ∧ c.content = text ∧ c.post = postId ∧ c.parentComment = pcid) ∧
    (∀ p ∈ s.posts, ∃ p2 ∈ (createComment s uid role postId (some text) pcid now).1.posts,
        p2.id = p.id ∧
        p2.comments =
          (if pcid = none ∧ p.id = postId then p.comments ++ [s.nextId] else p.comments)) ∧
    (∀ c ∈ s.comments, ∃ c2 ∈ (createComment s uid role postId (some text) pcid now).1.comments,
        c2.id = c.id ∧
        c2.replies = (if pcid = some c.id then c.replies ++ [s.nextId] else c.replies)) := by
  have hm : contentMissing (some text) = false := by
    simp [contentMissing, ht]
  match pcid with
  | none =>
    simp only [createComment, mkComment, insertComment, pushReply, pushPostComment,
      Option.getD_some, hm, Bool.false_eq_true, if_false]
    refine ⟨⟨_, List.mem_append_right _ (List.mem_singleton.mpr rfl), rfl, rfl, rfl, rfl⟩, ?_, ?_⟩
    · intro p hp
      refine ⟨_, List.mem_map_of_mem _ hp, ?_⟩
      by_cases hid : p.id = postId <;> simp [hid]
    · intro c hc
      exact ⟨c, List.mem_append_left _ hc, rfl, by simp⟩
  | some pid =>
    simp only [createComment, mkComment, insertComment, pushReply, pushPostComment,
      Option.getD_some, hm, Bool.false_eq_true, if_false]
    refine ⟨?_, ?_, ?_⟩
    · refine ⟨_, List.mem_map_of_mem _ (List.mem_append_right _ (List.mem_singleton.mpr rfl)), ?_⟩
      by_cases hid : s.nextId = pid <;> simp [hid]
    · intro p hp
      exact ⟨p, hp, rfl, by simp⟩
    · intro c hc
      refine ⟨_, List.mem_map_of_mem _ (List.mem_append_left _ hc), ?_⟩
      by_cases hid : c.id = pid
      · simp [hid]
      · simp [hid, Ne.symm hid]

theorem createComment_single_linkage_witness :
    (∃ c ∈ (createComment cexStore 0 "user" 0 (some "w") none 9).1.comments,
        c.id = cexStore.nextId ∧ c.content = "w" ∧ c.post = 0 ∧ c.parentComment = none) ∧
    (∃ p2 ∈ (createComment cexStore 0 "user" 0 (some "w") none 9).1.posts,
        p2.id = cexPost.id ∧
        p2.comments = (if (none : Option Nat) = none ∧ cexPost.id = 0 then
          cexPost.comments ++ [cexStore.nextId] else cexPost.comments)) ∧
    (∃ c2 ∈ (createComment cexStore 0 "user" 0 (some "w") none 9).1.comments,
        c2.id = cexC1.id ∧
        c2.replies = (if (none : Option Nat) = some cexC1.id then
          cexC1.replies ++ [cexStore.nextId] else cexC1.replies)) :=
  ⟨(createComment_single_linkage cexStore 0 9 0 "user" "w" none (by decide)).1,
   (createComment_single_linkage cexStore 0 9 0 "user" "w" none (by decide)).2.1 cexPost
     (by decide),
   (createComment_single_linkage cexStore 0 9 0 "user" "w" none (by decide)).2.2 cexC1
     (by decide)⟩

/-- C8: frame property of the exposed forum operations. `getAllPosts` leaves
the store unchanged; `createPost` keeps every pre-existing Post and Comment
document intact; `createComment` keeps every pre-existing document present
with all non-linkage fields unchanged, the only possible in-place change
being the append of the new comment's id to one `comments` or `replies`
array; no operation deletes a document. -/
theorem forum_frame (s : Store) (uid now postId : Nat) (role : String)
    (content : Option String) (pcid : Option Nat) :
    (getAllPostsOp s).1 = s ∧
    ((∀ p ∈ s.posts, p ∈ (createPost s uid role content now).1.posts) ∧
      (createPost s uid role content now).1.comments = s.comments) ∧
    (∀ p ∈ s.posts, ∃ p2 ∈ (createComment s uid role postId content pcid now).1.posts,
      p2.id = p.id ∧ p2.content = p.content ∧ p2.author = p.author ∧
      p2.authorType = p.authorType ∧ p2.createdAt = p.createdAt ∧
      (p2.comments = p.comments ∨ p2.comments = p.comments ++ [s.nextId])) ∧
    (∀ c ∈ s.comments, ∃ c2 ∈ (createComment s uid role postId content pcid now).1.comments,
      c2.id = c.id ∧ c2.content = c.content ∧ c2.author = c.author ∧
      c2.authorType = c.authorType ∧ c2.post = c.post ∧ c2.parentComment = c.parentComment ∧
      c2.createdAt = c.createdAt ∧
      (c2.replies = c.replies ∨ c2.replies = c.replies ++ [s.nextId])) := by
  by_cases h : contentMissing content = true
  · refine ⟨rfl, ⟨fun p hp => by simpa [createPost, h] using hp, by simp [createPost, h]⟩,
      fun p hp => ⟨p, by simpa [createComment, h] using hp, rfl, rfl, rfl, rfl, rfl, Or.inl rfl⟩,
      fun c hc => ⟨c, by simpa [createComment, h] using hc,
        rfl, rfl, rfl, rfl, rfl, rfl, rfl, Or.inl rfl⟩⟩
  · have h' : contentMissing content = false := by simpa using h
    refine ⟨rfl, ⟨fun p hp => ?_, ?_⟩, fun p hp => ?_, fun c hc => ?_⟩
    · simp only [createPost, h', Bool.false_eq_true, if_false]
      exact List.mem_append_left _ hp
    · simp [createPost, h']
    · rcases pcid with _ | pid
      · refine ⟨if p.id = postId then { p with comments := p.comments ++ [s.nextId] } else p,
          ?_, ?_⟩
        · simp only [createComment, mkComment, insertComment, pushReply, pushPostComment,
            h', Bool.false_eq_true, if_false]
          exact List.mem_map_of_mem _ hp
        · by_cases hid : p.id = postId <;> simp [hid]
      · refine ⟨p, ?_, rfl, rfl, rfl, rfl, rfl, Or.inl rfl⟩
        simp only [createComment, mkComment, insertComment, pushReply, pushPostComment,
          h', Bool.false_eq_true, if_false]
        exact hp
    · rcases pcid with _ | pid
      · refine ⟨c, ?_, rfl, rfl, rfl, rfl, rfl, rfl, rfl, Or.inl rfl⟩
        simp only [createComment, mkComment, insertComment, pushReply, pushPostComment,
          h', Bool.false_eq_true, if_false]
        exact List.mem_append_left _ hc
      · refine ⟨if c.id = pid then { c with replies := c.replies ++ [s.nextId] } else c, ?_, ?_⟩
        · simp only [createComment, mkComment, insertComment, pushReply, pushPostComment,
            h', Bool.false_eq_true, if_false]
          exact List.mem_map_of_mem _ (List.mem_append_left _ hc)
        · by_cases hid : c.id = pid <;> simp [hid]

theorem forum_frame_witness :
    (getAllPostsOp cexStore).1 = cexStore ∧
    (cexPost ∈ (createPost cexStore 0 "user" (some "x") 7).1.posts ∧
      (createPost cexStore 0 "user" (some "x") 7).1.comments = cexStore.comments) ∧
    (∃ p2 ∈ (createComment cexStore 0 "user" 0 (some "x") none 7).1.posts,
      p2.id = cexPost.id ∧ p2.content = cexPost.content ∧ p2.author = cexPost.author ∧
      p2.authorType = cexPost.authorType ∧ p2.createdAt = cexPost.createdAt ∧
      (p2.comments = cexPost.comments ∨
        p2.comments = cexPost.comments ++ [cexStore.nextId])) ∧
    (∃ c2 ∈ (createComment cexStore 0 "user" 0 (some "x") none 7).1.comments,
      c2.id = cexC1.id ∧ c2.content = cexC1.content ∧ c2.author = cexC1.author ∧
      c2.authorType = cexC1.authorType ∧ c2.post = cexC1.post ∧
      c2.parentComment = cexC1.parentComment ∧ c2.createdAt = cexC1.createdAt ∧
      (c2.replies = cexC1.replies ∨ c2.replies = cexC1.replies ++ [cexStore.nextId])) :=
  ⟨(forum_frame cexStore 0 7 0 "user" (some "x") none).1,
   ⟨(forum_frame cexStore 0 7 0 "user" (some "x") none).2.1.1 cexPost (by decide),
    (forum_frame cexStore 0 7 0 "user" (some "x") none).2.1.2⟩,
   (forum_frame cexStore 0 7 0 "user" (some "x") none).2.2.1 cexPost (by decide),
   (forum_frame cexStore 0 7 0 "user" (some "x") none).2.2.2 cexC1 (by decide)⟩

/-- C5: with non-empty content but a dangling `postId` (or dangling
`parentCommentId` when one is given), `createComment` still creates the
Comment document and answers 201 with it; the linkage update is a no-op, and
the new comment's id ends up in no `comments` and no `replies` array — an
orphan.  (`parentCommentId ≠ nextId` holds for every real request, since the
server-generated fresh id cannot be named by the client.) -/
theorem createComment_dangling_target (s : Store) (uid now postId : Nat)
    (role text : String) (pcid : Option Nat) (hwf : WFStore s) (ht : text ≠ "")
    (hfresh : pcid ≠ some s.nextId)
    (hmiss : match pcid with
             | some k => ∀ c ∈ s.comments, c.id ≠ k
             | none => ∀ p ∈ s.posts, p.id ≠ postId) :
    ((createComment s uid role postId (some text) pcid now).2.status = 201) ∧
    (∃ c pr, (createComment s uid role postId (some text) pcid now).2 =
        CreateCommentResult.created c pr ∧ c.id = s.nextId ∧ c.content = text ∧
        c.post = postId ∧ c.parentComment = pcid) ∧
    (mkComment s uid role postId text pcid now
      ∈ (createComment s uid role postId (some text) pcid now).1.comments) ∧
    ((createComment s uid role postId (some text) pcid now).1.posts = s.posts) ∧
    (∀ c ∈ s.comments, c ∈ (createComment s uid role postId (some text) pcid now).1.comments) ∧
    (∀ p ∈ (createComment s uid role postId (some text) pcid now).1.posts,
        s.nextId ∉ p.comments) ∧
    (∀ c ∈ (createComment s uid role postId (some text) pcid now).1.comments,
        s.nextId ∉ c.replies) := by
  have hm : contentMissing (some text) = false := by
    simp [contentMissing, ht]
  rcases pcid with _ | k
  · have hmiss' : ∀ p ∈ s.posts, p.id ≠ postId := hmiss
    have hcomments : (createComment s uid role postId (some text) none now).1.comments =
        s.comments ++ [mkComment s uid role postId text none now] := by
      simp only [createComment, hm, Bool.false_eq_true, if_false, Option.getD_some]
      rfl
    have hposts : (createComment s uid role postId (some text) none now).1.posts = s.posts := by
      simp only [createComment, hm, Bool.false_eq_true, if_false, Option.getD_some,
        pushPostComment, insertComment]
      exact (List.map_congr_left fun p hp => if_neg (hmiss' p hp)).trans (List.map_id' _)
    have hfind : findComment
        (pushPostComment (insertComment s (mkComment s uid role postId text none now))
          postId (mkComment s uid role postId text none now).id)
        (mkComment s uid role postId text none now).id =
        some (mkComment s uid role postId text none now) :=
      findComment_comments_append _ s.comments _ rfl
        fun x hx => Nat.ne_of_lt (hwf.2.1 x hx).1
    have hr2 : (createComment s uid role postId (some text) none now).2 =
        CreateCommentResult.created (mkComment s uid role postId text none now)
          (resolveAuthor
            (pushPostComment (insertComment s (mkComment s uid role postId text none now))
              postId (mkComment s uid role postId text none now).id)
            (mkComment s uid role postId text none now).author
            (mkComment s uid role postId text none now).authorType) := by
      simp only [createComment, hm, Bool.false_eq_true, if_false, Option.getD_some, hfind]
    refine ⟨by rw [hr2]; rfl, ⟨_, _, hr2, rfl, rfl, rfl, rfl⟩, ?_, hposts, ?_, ?_, ?_⟩
    · rw [hcomments]
      exact List.mem_append_right _ (List.mem_singleton.mpr rfl)
    · intro c hc
      rw [hcomments]
      exact List.mem_append_left _ hc
    · intro p hp hmem
      rw [hposts] at hp
      exact Nat.lt_irrefl _ ((hwf.1 p hp).2 _ hmem)
    · intro c hc hmem
      rw [hcomments] at hc
      rcases List.mem_append.mp hc with hold | hnew
      · exact Nat.lt_irrefl _ ((hwf.2.1 c hold).2 _ hmem)
      · rw [List.mem_singleton.mp hnew] at hmem
        simp [mkComment] at hmem
  · have hmiss' : ∀ c ∈ s.comments, c.id ≠ k := hmiss
    have hk : s.nextId ≠ k := fun h => hfresh (by rw [h])
    have hmap : (s.comments ++ [mkComment s uid role postId text (some k) now]).map
        (fun q => if q.id = k then
          { q with replies :=
              q.replies ++ [(mkComment s uid role postId text (some k) now).id] }
          else q) = s.comments ++ [mkComment s uid role postId text (some k) now] := by
      refine (List.map_congr_left ?_).trans (List.map_id' _)
      intro x hx
      rcases List.mem_append.mp hx with hold | hnew
      · exact if_neg (hmiss' x hold)
      · rw [List.mem_singleton.mp hnew]
        exact if_neg hk
    have hcomments : (createComment s uid role postId (some text) (some k) now).1.comments =
        s.comments ++ [mkComment s uid role postId text (some k) now] := by
      simp only [createComment, hm, Bool.false_eq_true, if_false, Option.getD_some,
        pushReply, insertComment]
      exact hmap
    have hposts : (createComment s uid role postId (some text) (some k) now).1.posts =
        s.posts := by
      simp only [createComment, hm, Bool.false_eq_true, if_false, Option.getD_some,
        pushReply, insertComment]
    have hfind : findComment
        (pushReply (insertComment s (mkComment s uid role postId text (some k) now))
          k (mkComment s uid role postId text (some k) now).id)
        (mkComment s uid role postId text (some k) now).id =
        some (mkComment s uid role postId text (some k) now) :=
      findComment_comments_append _ s.comments _ hmap
        fun x hx => Nat.ne_of_lt (hwf.2.1 x hx).1
    have hr2 : (createComment s uid role postId (some text) (some k) now).2 =
        CreateCommentResult.created (mkComment s uid role postId text (some k) now)
          (resolveAuthor
            (pushReply (insertComment s (mkComment s uid role postId text (some k) now))
              k (mkComment s uid role postId text (some k) now).id)
            (mkComment s uid role postId text (some k) now).author
            (mkComment s uid role postId text (some k) now).authorType) := by
      simp only [createComment, hm, Bool.false_eq_true, if_false, Option.getD_some, hfind]
    refine ⟨by rw [hr2]; rfl, ⟨_, _, hr2, rfl, rfl, rfl, rfl⟩, ?_, hposts, ?_, ?_, ?_⟩
    · rw [hcomments]
      exact List.mem_append_right _ (List.mem_singleton.mpr rfl)
    · intro c hc
      rw [hcomments]
      exact List.mem_append_left _ hc
    · intro p hp hmem
      rw [hposts] at hp
      exact Nat.lt_irrefl _ ((hwf.1 p hp).2 _ hmem)
    · intro c hc hmem
      rw [hcomments] at hc
      rcases List.mem_append.mp hc with hold | hnew
      · exact Nat.lt_irrefl _ ((hwf.2.1 c hold).2 _ hmem)
      · rw [List.mem_singleton.mp hnew] at hmem
        simp [mkComment] at hmem

theorem createComment_dangling_target_witness :
    ((createComment cexStore 0 "user" 99 (some "w") none 9).2.status = 201) ∧
    (∃ c pr, (createComment cexStore 0 "user" 99 (some "w") none 9).2 =
        CreateCommentResult.created c pr ∧ c.id = cexStore.nextId ∧ c.content = "w" ∧
        c.post = 99 ∧ c.parentComment = none) ∧
    (mkComment cexStore 0 "user" 99 "w" none 9
      ∈ (createComment cexStore 0 "user" 99 (some "w") none 9).1.comments) ∧
    ((createComment cexStore 0 "user" 99 (some "w") none 9).1.posts = cexStore.posts) ∧
    (∀ c ∈ cexStore.comments,
        c ∈ (createComment cexStore 0 "user" 99 (some "w") none 9).1.comments) ∧
    (∀ p ∈ (createComment cexStore 0 "user" 99 (some "w") none 9).1.posts,
        cexStore.nextId ∉ p.comments) ∧
    (∀ c ∈ (createComment cexStore 0 "user" 99 (some "w") none 9).1.comments,
        cexStore.nextId ∉ c.replies) :=
  createComment_dangling_target cexStore 0 9 99 "user" "w" none (by decide) (by decide)
    (by decide) (by decide)

theorem setSlots_of_absent (l : List AvailEntry) (date : String) (slots : List String)
    (h : ∀ e ∈ l, e.date ≠ date) :
    setSlots l date slots = l ++ [{ date := date, slots := slots }] := by
  induction l with
  | nil => rfl
  | cons e rest ih =>
    simp only [setSlots, if_neg (h e (List.mem_cons_self e rest))]
    rw [ih fun x hx => h x (List.mem_cons_of_mem e hx)]
    rfl

theorem setSlots_dates_of_found (l : List AvailEntry) (date : String) (slots : List String)
    (h : ∃ e ∈ l, e.date = date) :
    (setSlots l date slots).map AvailEntry.date = l.map AvailEntry.date := by
  induction l with
  | nil =>
    rcases h with ⟨e, he, -⟩
    cases he
  | cons e rest ih =>
    by_cases hed : e.date = date
    · simp only [setSlots, if_pos hed, List.map_cons]
    · rcases h with ⟨e2, he2, hd2⟩
      rcases List.mem_cons.mp he2 with rfl | hrest
      · exact absurd hd2 hed
      · simp only [setSlots, if_neg hed, List.map_cons, ih ⟨e2, hrest, hd2⟩]

theorem setSlots_find (l : List AvailEntry) (date : String) (slots : List String) :
    (setSlots l date slots).find? (fun e => e.date == date) =
      some { date := date, slots := slots } := by
  induction l with
  | nil => simp [setSlots]
  | cons e rest ih =>
    by_cases hed : e.date = date
    · simp only [setSlots, if_pos hed]
      rw [List.find?_cons_of_pos _ (by simp [hed])]
      rw [hed]
    · simp only [setSlots, if_neg hed]
      rw [List.find?_cons_of_neg _ (by simp [hed])]
      exact ih

theorem setSlots_mem_of_other (l : List AvailEntry) (date : String) (slots : List String) :
    ∀ e ∈ l, e.date ≠ date → e ∈ setSlots l date slots := by
  induction l with
  | nil => intro e he; cases he
  | cons b rest ih =>
    intro e he hne
    by_cases hbd : b.date = date
    · simp only [setSlots, if_pos hbd]
      rcases List.mem_cons.mp he with rfl | hrest
      · exact absurd hbd hne
      · exact List.mem_cons_of_mem _ hrest
    · simp only [setSlots, if_neg hbd]
      rcases List.mem_cons.mp he with rfl | hrest
      · exact List.mem_cons_self _ _
      · exact List.mem_cons_of_mem _ (ih e hrest hne)

theorem setSlots_mem_of_other_rev (l : List AvailEntry) (date : String) (slots : List String) :
    ∀ e ∈ setSlots l date slots, e.date ≠ date → e ∈ l := by
  induction l with
  | nil =>
    intro e he hne
    simp only [setSlots, List.mem_singleton] at he
    exact absurd (by rw [he]) hne
  | cons b rest ih =>
    intro e he hne
    by_cases hbd : b.date = date
    · simp only [setSlots, if_pos hbd] at he
      rcases List.mem_cons.mp he with rfl | hrest
      · exact absurd hbd hne
      · exact List.mem_cons_of_mem _ hrest
    · simp only [setSlots, if_neg hbd] at he
      rcases List.mem_cons.mp he with rfl | hrest
      · exact List.mem_cons_self _ _
      · exact List.mem_cons_of_mem _ (ih e hrest hne)

theorem setSlots_nodup (l : List AvailEntry) (date : String) (slots : List String)
    (h : (l.map AvailEntry.date).Nodup) :
    ((setSlots l date slots).map AvailEntry.date).Nodup := by
  by_cases hex : ∃ e ∈ l, e.date = date
  · rw [setSlots_dates_of_found l date slots hex]
    exact h
  · push_neg at hex
    rw [setSlots_of_absent l date slots hex, List.map_append]
    rw [List.nodup_append]
    refine ⟨h, List.nodup_singleton _, ?_⟩
    intro x hx hx2
    rcases List.mem_map.mp hx with ⟨e, he, rfl⟩
    rw [List.map_cons, List.map_nil, List.mem_singleton] at hx2
    exact hex e he hx2

theorem find?_doctor_unique (l : List DoctorDoc) (d : DoctorDoc) (k : Nat)
    (hnd : (l.map DoctorDoc.id).Nodup) (hd : d ∈ l) (hid : d.id = k) :
    l.find? (fun x => x.id == k) = some d := by
  induction l with
  | nil => cases hd
  | cons b rest ih =>
    simp only [List.map_cons, List.nodup_cons] at hnd
    rcases List.mem_cons.mp hd with rfl | hrest
    · rw [List.find?_cons_of_pos _ (by simp [hid])]
    · have hbk : b.id ≠ k := by
        intro hbk
        apply hnd.1
        rw [hbk, ← hid]
        exact List.mem_map_of_mem _ hrest
      rw [List.find?_cons_of_neg _ (by simp [hbk])]
      exact ih hnd.2 hrest

/-- C9: on a doctor whose availability has at most one entry per date,
`setAvailability` answers 200 and updates that doctor so that per-date
uniqueness is preserved, the entry found for the given date holds exactly the
given slots, entries for other dates are kept (in both directions), the
date sequence is unchanged when the date already had an entry (in-place
replacement), and a new entry is appended at the end otherwise. -/
theorem setAvailability_per_date (doctors : List DoctorDoc) (doctorId : Nat)
    (date : String) (slots : List String) (d : DoctorDoc)
    (hd : d ∈ doctors) (hid : d.id = doctorId)
    (hnd : (doctors.map DoctorDoc.id).Nodup)
    (hu : (d.availableSlots.map AvailEntry.date).Nodup) :
    (setAvailability doctors doctorId date slots).2 = 200 ∧
    ∃ d2 ∈ (setAvailability doctors doctorId date slots).1, d2.id = d.id ∧
      d2.name = d.name ∧ d2.specialization = d.specialization ∧
      ((d2.availableSlots.map AvailEntry.date).Nodup ∧
       d2.availableSlots.find? (fun e => e.date == date) =
         some { date := date, slots := slots } ∧
       (∀ e ∈ d.availableSlots, e.date ≠ date → e ∈ d2.availableSlots) ∧
       (∀ e ∈ d2.availableSlots, e.date ≠ date → e ∈ d.availableSlots) ∧
       ((∃ e ∈ d.availableSlots, e.date = date) →
          d2.availableSlots.map AvailEntry.date = d.availableSlots.map AvailEntry.date) ∧
       ((∀ e ∈ d.availableSlots, e.date ≠ date) →
          d2.availableSlots = d.availableSlots ++ [{ date := date, slots := slots }])) := by
  have hfind := find?_doctor_unique doctors d doctorId hnd hd hid
  constructor
  · unfold setAvailability
    rw [hfind]
  · refine ⟨{ d with availableSlots := setSlots d.availableSlots date slots }, ?_,
      rfl, rfl, rfl, setSlots_nodup _ _ _ hu, setSlots_find _ _ _,
      setSlots_mem_of_other _ _ _, setSlots_mem_of_other_rev _ _ _,
      setSlots_dates_of_found _ _ _, setSlots_of_absent _ _ _⟩
    unfold setAvailability
    rw [hfind]
    exact List.mem_map.mpr ⟨d, hd, by simp⟩

theorem setAvailability_per_date_witness :
    (setAvailability demoDoctors 1 "2026-01-01" ["10:00", "11:00"]).2 = 200 ∧
    ∃ d2 ∈ (setAvailability demoDoctors 1 "2026-01-01" ["10:00", "11:00"]).1,
      d2.id = demoDoctor.id ∧
      d2.name = demoDoctor.name ∧ d2.specialization = demoDoctor.specialization ∧
      ((d2.availableSlots.map AvailEntry.date).Nodup ∧
       d2.availableSlots.find? (fun e => e.date == "2026-01-01") =
         some { date := "2026-01-01", slots := ["10:00", "11:00"] } ∧
       (∀ e ∈ demoDoctor.availableSlots, e.date ≠ "2026-01-01" → e ∈ d2.availableSlots) ∧
       (∀ e ∈ d2.availableSlots, e.date ≠ "2026-01-01" → e ∈ demoDoctor.availableSlots) ∧
       ((∃ e ∈ demoDoctor.availableSlots, e.date = "2026-01-01") →
          d2.availableSlots.map AvailEntry.date =
            demoDoctor.availableSlots.map AvailEntry.date) ∧
       ((∀ e ∈ demoDoctor.availableSlots, e.date ≠ "2026-01-01") →
          d2.availableSlots = demoDoctor.availableSlots ++
            [{ date := "2026-01-01", slots := ["10:00", "11:00"] }])) :=
  setAvailability_per_date demoDoctors 1 "2026-01-01" ["10:00", "11:00"] demoDoctor
    (by decide) rfl (by decide) (by decide)

theorem find?_appointment_unique (l : List Appointment) (a : Appointment)
    (did k : Nat) (hnd : (l.map Appointment.id).Nodup) (ha : a ∈ l)
    (hid : a.id = k) (hdoc : a.doctorId = did) :
    l.find? (fun x => x.id == k && x.doctorId == did) = some a := by
  induction l with
  | nil => cases ha
  | cons b rest ih =>
    simp only [List.map_cons, List.nodup_cons] at hnd
    rcases List.mem_cons.mp ha with rfl | hrest
    · rw [List.find?_cons_of_pos _ (by simp [hid, hdoc])]
    · have hbk : b.id ≠ k := by
        intro hbk
        apply hnd.1
        rw [hbk, ← hid]
        exact List.mem_map_of_mem _ hrest
      rw [List.find?_cons_of_neg _ (by simp [hbk])]
      exact ih hnd.2 hrest

/-- C10: `markAppointmentCompleted` is guarded and atomic.  When no
appointment with the given id belongs to the requesting doctor, it answers
404 and leaves the collection untouched; when the matching appointment is
already "completed", it answers 400 and leaves the collection untouched;
otherwise it answers 200 and the only change is that the matching
appointment's `status` becomes "completed" — every other appointment, and
every other field of the matching appointment, is unchanged. -/
theorem markAppointmentCompleted_guarded (apps : List Appointment)
    (doctorId appointmentId : Nat) (hnd : (apps.map Appointment.id).Nodup) :
    ((∀ a ∈ apps, ¬(a.id = appointmentId ∧ a.doctorId = doctorId)) →
      markAppointmentCompleted apps doctorId appointmentId = (apps, 404)) ∧
    (∀ a ∈ apps, a.id = appointmentId → a.doctorId = doctorId →
      (a.status = "completed" →
        markAppointmentCompleted apps doctorId appointmentId = (apps, 400)) ∧
      (a.status ≠ "completed" →
        (markAppointmentCompleted apps doctorId appointmentId).2 = 200 ∧
        (markAppointmentCompleted apps doctorId appointmentId).1 =
          apps.map fun x =>
            if x.id = appointmentId then { x with status := "completed" } else x)) := by
  constructor
  · intro h
    unfold markAppointmentCompleted
    rw [List.find?_eq_none.mpr fun x hx => by simpa using h x hx]
  · intro a ha hid hdoc
    have hfind := find?_appointment_unique apps a doctorId appointmentId hnd ha hid hdoc
    constructor
    · intro hst
      unfold markAppointmentCompleted
      rw [hfind]
      simp [hst]
    · intro hst
      unfold markAppointmentCompleted
      rw [hfind]
      have hb : (a.status == "completed") = false := by
        simpa using hst
      simp only [hb, Bool.false_eq_true, if_false]
      exact ⟨by trivial, by rw [hid]⟩

theorem markAppointmentCompleted_guarded_witness :
    (markAppointmentCompleted demoApps 1 99 = (demoApps, 404)) ∧
    ((markAppointmentCompleted demoApps 1 2).2 = 200 ∧
      (markAppointmentCompleted demoApps 1 2).1 =
        demoApps.map fun x =>
          if x.id = 2 then { x with status := "completed" } else x) :=
  ⟨(markAppointmentCompleted_guarded demoApps 1 99 (by decide)).1 (by decide),
   ((markAppointmentCompleted_guarded demoApps 1 2 (by decide)).2 demoAppointment
      (by decide) rfl rfl).2 (by decide)⟩

theorem createComment_none_state (s : Store) (uid : Nat) (role : String) (postId : Nat)
    (text : String) (now : Nat) (hm : text ≠ "") :
    (createComment s uid role postId (some text) none now).1 =
      pushPostComment (insertComment s (mkComment s uid role postId text none now))
        postId s.nextId := by
  have hmc : contentMissing (some text) = false := by simp [contentMissing, hm]
  simp only [createComment, hmc, Bool.false_eq_true, if_false, Option.getD_some]
  rfl

theorem createComment_some_state (s : Store) (uid : Nat) (role : String) (postId : Nat)
    (text : String) (pid now : Nat) (hm : text ≠ "") :
    (createComment s uid role postId (some text) (some pid) now).1 =
      pushReply (insertComment s (mkComment s uid role postId text (some pid) now))
        pid s.nextId := by
  have hmc : contentMissing (some text) = false := by simp [contentMissing, hm]
  simp only [createComment, hmc, Bool.false_eq_true, if_false, Option.getD_some]
  rfl

theorem findComment_id (s : Store) (cid : Nat) (c : Comment)
    (h : findComment s cid = some c) : c.id = cid := by
  unfold findComment at h
  have h2 := @List.find?_some Comment (fun x => x.id == cid) c s.comments h
  exact eq_of_beq h2

theorem getAllPosts_mem (s : Store) (p : Post) (hp : p ∈ s.posts) :
    ({ doc := p
       authorProj := resolveAuthor s p.author p.authorType
       comments :=
         (List.insertionSort commentOldestFirst
             (p.comments.filterMap (findComment s))).map (hydrateTopComment s) } : HPost)
      ∈ getAllPosts s := by
  unfold getAllPosts
  exact List.mem_map_of_mem _ ((List.mem_insertionSort _).mpr hp)

/-- C6: reply linkage round-trip.  Starting from a well-formed store holding
post P, creating top-level comment A on P and then comment B with
parentCommentId = A's id, `getAllPosts` shows an entry for P in which A's
`replies` contain exactly B (expanded, with empty replies), and no top-level
comment of P has B's id. -/
theorem reply_linkage_roundtrip (s : Store) (P : Post) (uidA uidB t1 t2 : Nat)
    (roleA roleB ca cb : String)
    (hwf : WFStore s) (hP : P ∈ s.posts) (hca : ca ≠ "") (hcb : cb ≠ "") :
    ∃ hp ∈ getAllPosts
        (createComment (createComment s uidA roleA P.id (some ca) none t1).1
          uidB roleB P.id (some cb) (some s.nextId) t2).1,
      hp.doc.id = P.id ∧
      (∃ hc ∈ hp.comments, hc.doc.id = s.nextId ∧
        ∃ d pr, hc.replies = [HNode.node d pr []] ∧
          d.id = s.nextId + 1 ∧ d.content = cb) ∧
      ∀ hc ∈ hp.comments, hc.doc.id ≠ s.nextId + 1 := by
  rw [createComment_none_state s uidA roleA P.id ca t1 hca]
  rw [createComment_some_state _ uidB roleB P.id cb s.nextId t2 hcb]
  set A : Comment := mkComment s uidA roleA P.id ca none t1 with hA
  set S1 : Store := pushPostComment (insertComment s A) P.id s.nextId with hS1
  set B : Comment := mkComment S1 uidB roleB P.id cb (some s.nextId) t2 with hB
  set S2 : Store := pushReply (insertComment S1 B) s.nextId S1.nextId with hS2
  set A2 : Comment := { A with replies := [s.nextId + 1] } with hA2
  set P2 : Post := { P with comments := P.comments ++ [s.nextId] } with hP2
  have hfreshold : ∀ c ∈ s.comments, c.id ≠ s.nextId :=
    fun c hc => Nat.ne_of_lt (hwf.2.1 c hc).1
  have hfreshold2 : ∀ c ∈ s.comments, c.id ≠ s.nextId + 1 := by
    intro c hc
    have := (hwf.2.1 c hc).1
    omega
  have h2c : S2.comments = s.comments ++ [A2, B] := by
    show (((s.comments ++ [A]) ++ [B]).map fun q =>
        if q.id = s.nextId then { q with replies := q.replies ++ [S1.nextId] } else q) =
      s.comments ++ [A2, B]
    rw [List.map_append, List.map_append]
    have hgold : (s.comments.map fun q =>
        if q.id = s.nextId then { q with replies := q.replies ++ [S1.nextId] } else q) =
        s.comments :=
      (List.map_congr_left fun x hx => if_neg (hfreshold x hx)).trans (List.map_id' _)
    have hgA : ([A].map fun q =>
        if q.id = s.nextId then { q with replies := q.replies ++ [S1.nextId] } else q) =
        [A2] := by
      simp only [List.map_cons, List.map_nil]
      rw [if_pos (show A.id = s.nextId from rfl)]
      rfl
    have hgB : ([B].map fun q =>
        if q.id = s.nextId then { q with replies := q.replies ++ [S1.nextId] } else q) =
        [B] := by
      simp only [List.map_cons, List.map_nil]
      rw [if_neg (show ¬(B.id = s.nextId) from Nat.succ_ne_self s.nextId)]
    rw [hgold, hgA, hgB, List.append_assoc]
    rfl
  have hfindA2 : findComment S2 s.nextId = some A2 := by
    unfold findComment
    rw [h2c, List.find?_append, find?_id_fresh s.comments s.nextId hfreshold]
    rw [@List.find?_cons_of_pos Comment (fun c => c.id == s.nextId) A2 [B]
      (beq_iff_eq.mpr rfl)]
    simp
  have hfindB : findComment S2 (s.nextId + 1) = some B := by
    unfold findComment
    rw [h2c, List.find?_append, find?_id_fresh s.comments (s.nextId + 1) hfreshold2]
    rw [@List.find?_cons_of_neg Comment (fun c => c.id == s.nextId + 1) A2 [B]
      (by
        intro hcontra
        have h4 : s.nextId = s.nextId + 1 := beq_iff_eq.mp hcontra
        omega)]
    rw [@List.find?_cons_of_pos Comment (fun c => c.id == s.nextId + 1) B []
      (beq_iff_eq.mpr rfl)]
    simp
  have hl2 : hydrateLevel2 S2 (s.nextId + 1) =
      some (HNode.node B (resolveAuthor S2 B.author B.authorType) []) := by
    unfold hydrateLevel2
    rw [hfindB]
    rfl
  have hP2mem : P2 ∈ S2.posts := by
    show P2 ∈ s.posts.map fun p =>
      if p.id = P.id then { p with comments := p.comments ++ [s.nextId] } else p
    exact List.mem_map.mpr ⟨P, hP, if_pos rfl⟩
  refine ⟨_, getAllPosts_mem S2 P2 hP2mem, rfl, ?_, ?_⟩
  · refine ⟨hydrateTopComment S2 A2, ?_, rfl, B, resolveAuthor S2 B.author B.authorType, ?_, rfl, rfl⟩
    · refine List.mem_map_of_mem _ ((List.mem_insertionSort _).mpr ?_)
      refine List.mem_filterMap.mpr ⟨s.nextId, ?_, hfindA2⟩
      show s.nextId ∈ P.comments ++ [s.nextId]
      exact List.mem_append_right _ (List.mem_singleton.mpr rfl)
    · show List.filterMap (hydrateLevel2 S2) A2.replies = _
      rw [show A2.replies = [s.nextId + 1] from rfl]
      rw [List.filterMap_cons, hl2]
      rfl
  · intro hc hmem
    obtain ⟨c, hcs, rfl⟩ := List.mem_map.mp hmem
    obtain ⟨cid, hcid, hfc⟩ := List.mem_filterMap.mp ((List.mem_insertionSort _).mp hcs)
    have hceq : c.id = cid := findComment_id _ _ _ hfc
    show c.id ≠ s.nextId + 1
    rcases List.mem_append.mp hcid with hold | hone
    · have := (hwf.1 P hP).2 cid hold
      omega
    · have : cid = s.nextId := List.mem_singleton.mp hone
      omega

theorem reply_linkage_roundtrip_witness :
    ∃ hp ∈ getAllPosts
        (createComment (createComment demoStore 0 "user" demoPost.id (some "a") none 4).1
          0 "doctor" demoPost.id (some "b") (some demoStore.nextId) 5).1,
      hp.doc.id = demoPost.id ∧
      (∃ hc ∈ hp.comments, hc.doc.id = demoStore.nextId ∧
        ∃ d pr, hc.replies = [HNode.node d pr []] ∧
          d.id = demoStore.nextId + 1 ∧ d.content = "b") ∧
      ∀ hc ∈ hp.comments, hc.doc.id ≠ demoStore.nextId + 1 :=
  reply_linkage_roundtrip demoStore demoPost 0 0 4 5 "user" "doctor" "a" "b"
    (by decide) (by decide) (by decide) (by decide)
